import Mathlib

/-!
Verification of `src/python/zero_results_analysis.py` (class `ZeroResultsAnalyzer`).

The Python source is shallowly embedded below.  Modelling conventions:

* A Python string is a `List Char`; Python string comparison (`<`, used by SQL
  `BETWEEN`, `sorted`, tuple comparison in `heapq.nlargest`) is code-point
  lexicographic order, embedded as `pyLt`.
* `str.lower()` is modelled as the per-character ASCII case map (the spec fixes
  "ASCII/Unicode lowercasing only", and no analyzed keyword or date string
  leaves ASCII); `str.strip()` removes the Python whitespace code points at
  both ends.
* pandas data frames are lists of records.  `groupby` sorts the group keys
  ascending (pandas default `sort=True`) and keeps the input order inside each
  group; `sort_values(..., ascending=False)` is pandas `nargsort`, which
  reverses the input, runs an ascending argsort and reverses the resulting
  indexer.  Both sorts are embedded with stable insertion sorts; numpy's
  default unstable quicksort leaves the order of large tied runs an
  implementation detail, and no theorem below depends on that tie order
  (each uses the sorted output only up to permutation).
* Exact rationals `ℚ` stand for Python floats.  All ratios produced by
  `difflib` are of the form `2*m/t` with `t` a sum of two string lengths, so
  for any realistic lengths two ratios are equal (or ordered) as doubles iff
  they are equal (ordered) as rationals, and a ratio compares to the cutoff
  `0.6` as its exact value compares to `3/5`.
* Fallible pandas operations are `Except AnalyzerError`: sorting a column
  that does not exist (the empty-`DataFrame` case in `detect_potential_typos`)
  raises a `KeyError`, embedded as `AnalyzerError.keyErrorFrequency`.
-/

/-! ### Python strings: code-point order, `lower`, `strip` -/
/-- Conversion `chars s`: the Python string `s` as its list of characters. -/
def chars (s : String) : List Char := s.toList

/-- Python string `<`: code-point lexicographic order on strings. -/
def pyLt : List Char → List Char → Bool
  | [], [] => false
  | [], _ :: _ => true
  | _ :: _, [] => false
  | c :: cs, d :: ds => if c = d then pyLt cs ds else decide (c.toNat < d.toNat)

/-- Python string `<=` (total order: `a <= b` iff `not (b < a)`). -/
def pyLe (a b : List Char) : Bool := ! pyLt b a

/-- Python `str.lower()` on one character: the ASCII case map (see file header). -/
def lowerChar (c : Char) : Char :=
  if 65 ≤ c.toNat ∧ c.toNat ≤ 90 then Char.ofNat (c.toNat + 32) else c

/-- The Python whitespace code points removed by `str.strip()`, by code point. -/
def isSpaceNat (n : Nat) : Bool :=
  decide ((9 ≤ n ∧ n ≤ 13) ∨ n = 32 ∨ (28 ≤ n ∧ n ≤ 31) ∨ n = 133 ∨ n = 160 ∨
    n = 5760 ∨ (8192 ≤ n ∧ n ≤ 8202) ∨ n = 8232 ∨ n = 8233 ∨ n = 8239 ∨
    n = 8287 ∨ n = 12288)

/-- The Python whitespace characters removed by `str.strip()`. -/
def isSpaceCh (c : Char) : Bool := isSpaceNat c.toNat

/-- Pandas `s.str.lower()`. -/
def pyLower (l : List Char) : List Char := l.map lowerChar

/-- Pandas `s.str.strip()`: drop whitespace from both ends. -/
def pyStrip (l : List Char) : List Char :=
  ((l.dropWhile isSpaceCh).reverse.dropWhile isSpaceCh).reverse

/-- The normalization of `analyze_top_zero_result_terms`
    (`.str.lower().str.strip()`, source lines 77-81). -/
def normalizeTerm (l : List Char) : List Char := pyStrip (pyLower l)

/-! ### pandas list primitives: `unique`, `groupby` key sort, `sort_values` -/
/-- Recursion of `Series.unique()`: keep the first occurrence of each value,
    tracking the values already seen. -/
def uniqueAux [DecidableEq α] (seen : List α) : List α → List α
  | [] => []
  | x :: xs =>
    if x ∈ seen then uniqueAux seen xs else x :: uniqueAux (x :: seen) xs

/-- pandas `Series.unique()`: distinct values in order of first occurrence. -/
def uniqueFirstSeen [DecidableEq α] (l : List α) : List α := uniqueAux [] l

/-- Lexicographic "sorted by `key` ascending, ties in the original relation"
    relation produced by a stable ascending sort. -/
def stableOrd (key : α → Nat) (Q : α → α → Prop) (a b : α) : Prop :=
  key a < key b ∨ (key a = key b ∧ Q a b)

/-- One step of stable insertion sort, ascending by a `Nat` key. -/
def insertByNat (key : α → Nat) (x : α) : List α → List α
  | [] => [x]
  | y :: ys => if key x ≤ key y then x :: y :: ys else y :: insertByNat key x ys

/-- Stable insertion sort, ascending by a `Nat` key (the stable regime of
    numpy's argsort, see file header). -/
def sortByNat (key : α → Nat) : List α → List α
  | [] => []
  | x :: xs => insertByNat key x (sortByNat key xs)

/-- pandas `sort_values(column, ascending=False)` via `nargsort`: reverse the
    rows, argsort ascending, reverse the resulting order.  The argsort is
    modelled as stable, which is exact only in numpy's insertion-sort regime
    (the default `kind='quicksort'` is an unstable introsort for larger tied
    runs, so the relative order of equal keys is then an implementation
    detail of numpy).  Every theorem below uses this sort only up to
    permutation of its output, so none depends on the tie order. -/
def pandasSortDesc (key : α → Nat) (l : List α) : List α :=
  (sortByNat key l.reverse).reverse

/-- Insertion step of the `groupby` key sort (keys ascending, Python string
    order). -/
def insertKey (x : List Char) : List (List Char) → List (List Char)
  | [] => [x]
  | y :: ys => if pyLe x y then x :: y :: ys else y :: insertKey x ys

/-- pandas `groupby(..., sort=True)` orders the group keys ascending. -/
def sortKeys : List (List Char) → List (List Char)
  | [] => []
  | x :: xs => insertKey x (sortKeys xs)

/-! ### `difflib` (Python 3): `SequenceMatcher` with `isjunk=None`,
    `get_close_matches` -/
/-- Table `b2j` before junk purging: ascending positions of `c` in `b`. -/
def b2jAll (b : List Char) (c : Char) : List Nat :=
  (List.range b.length).filter (fun j => b.getD j (Char.ofNat 0) = c)

/-- Table `b2j` with `autojunk=True`: when `len(b) >= 200`, characters occurring
    more than `len(b) // 100 + 1` times are dropped ("popular" elements);
    `isjunk` is `None`, so `bjunk` stays empty. -/
def b2j (b : List Char) (c : Char) : List Nat :=
  let idxs := b2jAll b c
  if 200 ≤ b.length ∧ b.length / 100 + 1 < idxs.length then [] else idxs

/-- Best-match update of the inner `find_longest_match` loop for row `i`:
    `k = newj2len[j] = j2len.get(j-1, 0) + 1`, and the best triple is replaced
    only on strictly larger `k` (`i - k + 1` and `j - k + 1` never go below
    zero because `k ≤ i+1` and `k ≤ j+1` along the scan). -/
def flmStep (j2len : Nat → Nat) (i : Nat) (js : List Nat)
    (best : Nat × Nat × Nat) : Nat × Nat × Nat :=
  js.foldl (fun bst j =>
    let k := (if j = 0 then 0 else j2len (j - 1)) + 1
    if bst.2.2 < k then (i + 1 - k, j + 1 - k, k) else bst) best

/-- The dynamic-programming phase of `find_longest_match`: fold over
    `i in range(alo, ahi)`; `j2len` is rebuilt per row from the previous row,
    the `continue`/`break` guards on `j` become the filter `blo ≤ j < bhi`. -/
def flmLoop (a b : List Char) (alo ahi blo bhi : Nat) : Nat × Nat × Nat :=
  ((List.range' alo (ahi - alo)).foldl
    (fun (st : (Nat → Nat) × (Nat × Nat × Nat)) i =>
      let js := (b2j b (a.getD i (Char.ofNat 0))).filter
        (fun j => decide (blo ≤ j) && decide (j < bhi))
      let newlen : Nat → Nat := fun j =>
        if js.contains j then (if j = 0 then 0 else st.1 (j - 1)) + 1 else 0
      (newlen, flmStep st.1 i js st.2))
    ((fun _ => 0), (alo, blo, 0))).2

/-- The backward extension loop (`while besti > alo and bestj > blo and
    a[besti-1] == b[bestj-1]`); `besti` strictly decreases, so `besti` much
    fuel suffices. -/
def extendBack (a b : List Char) (alo blo : Nat) :
    Nat → Nat × Nat × Nat → Nat × Nat × Nat
  | 0, st => st
  | fuel + 1, (bi, bj, bs) =>
    if alo < bi ∧ blo < bj ∧
        a.getD (bi - 1) (Char.ofNat 0) = b.getD (bj - 1) (Char.ofNat 0) then
      extendBack a b alo blo fuel (bi - 1, bj - 1, bs + 1)
    else (bi, bj, bs)

/-- The forward extension loop (`while besti+bestsize < ahi and ...`);
    `bestsize` strictly increases and stays below `ahi`, so `ahi + bhi` much
    fuel suffices. -/
def extendFwd (a b : List Char) (ahi bhi : Nat) :
    Nat → Nat × Nat × Nat → Nat × Nat × Nat
  | 0, st => st
  | fuel + 1, (bi, bj, bs) =>
    if bi + bs < ahi ∧ bj + bs < bhi ∧
        a.getD (bi + bs) (Char.ofNat 0) = b.getD (bj + bs) (Char.ofNat 0) then
      extendFwd a b ahi bhi fuel (bi, bj, bs + 1)
    else (bi, bj, bs)

/-- Method `SequenceMatcher.find_longest_match` with `isjunk=None`: `bjunk` is empty,
    so the two junk-extension loops are no-ops and the `not isbjunk(...)`
    guards of the non-junk extension loops always hold. -/
def find_longest_match (a b : List Char) (alo ahi blo bhi : Nat) :
    Nat × Nat × Nat :=
  let st := flmLoop a b alo ahi blo bhi
  let st2 := extendBack a b alo blo st.1 st
  extendFwd a b ahi bhi (ahi + bhi) st2

/-- Total size of the blocks produced by `get_matching_blocks` (the queue
    recursion over sub-intervals; only the sum of block sizes feeds
    `ratio()`).  Each recursive call strictly decreases
    `(ahi - alo) + (bhi - blo)`, so fuel `(ahi - alo) + (bhi - blo) + 1`
    never runs out. -/
def matchSum (a b : List Char) : Nat → Nat → Nat → Nat → Nat → Nat
  | 0, _, _, _, _ => 0
  | fuel + 1, alo, ahi, blo, bhi =>
    let m := find_longest_match a b alo ahi blo bhi
    if m.2.2 = 0 then 0
    else
      m.2.2 +
      (if alo < m.1 ∧ blo < m.2.1 then matchSum a b fuel alo m.1 blo m.2.1
        else 0) +
      (if m.1 + m.2.2 < ahi ∧ m.2.1 + m.2.2 < bhi then
        matchSum a b fuel (m.1 + m.2.2) ahi (m.2.1 + m.2.2) bhi else 0)

/-- Helper `difflib._calculate_ratio`, with the float result kept as an exact
    fraction `(numerator, positive denominator)` (value `2*m/t`, and `1` when
    `t = 0`).  Fractions are compared by cross-multiplication; `ratQ` below
    interprets them in `ℚ`. -/
def calcRatioP (m t : Nat) : Nat × Nat :=
  if t = 0 then (1, 1) else (2 * m, t)

/-- The `ℚ` value of a fraction pair. -/
def ratQ (p : Nat × Nat) : ℚ := (p.1 : ℚ) / (p.2 : ℚ)

/-- Method `SequenceMatcher.ratio()` for `a` (seq1) against `b` (seq2), as a
    fraction pair. -/
def seqRatioP (a b : List Char) : Nat × Nat :=
  calcRatioP (matchSum a b (a.length + b.length + 1) 0 a.length 0 b.length)
    (a.length + b.length)

/-- Method `SequenceMatcher.ratio()` as its exact rational value. -/
def seqRatio (a b : List Char) : ℚ := ratQ (seqRatioP a b)

/-- Method `SequenceMatcher.quick_ratio()`: the multiset-intersection cardinality of
    the two strings (net effect of the `avail` bookkeeping loop). -/
def quick_ratioP (a b : List Char) : Nat × Nat :=
  calcRatioP
    (((uniqueFirstSeen a).map (fun c => min (a.count c) (b.count c))).sum)
    (a.length + b.length)

/-- Method `SequenceMatcher.real_quick_ratio()`. -/
def real_quick_ratioP (a b : List Char) : Nat × Nat :=
  calcRatioP (min a.length b.length) (a.length + b.length)

/-- Fraction-pair comparison `p >= q` (cross-multiplied). -/
def rGe (p q : Nat × Nat) : Bool := decide (q.1 * p.2 ≤ p.1 * q.2)

/-- Fraction-pair comparison `p > q` (cross-multiplied). -/
def rGt (p q : Nat × Nat) : Bool := decide (q.1 * p.2 < p.1 * q.2)

/-- Fraction-pair equality (cross-multiplied). -/
def rEq (p q : Nat × Nat) : Bool := decide (p.1 * q.2 = q.1 * p.2)

/-- The default `get_close_matches` cutoff `0.6` as a fraction pair (see the
    file header for the float-vs-rational reading). -/
def cutoffP : Nat × Nat := (3, 5)

/-- The cutoff as a rational. -/
def cutoff : ℚ := ratQ cutoffP

/-- The filter chain of `get_close_matches`: `real_quick_ratio() >= cutoff and
    quick_ratio() >= cutoff and ratio() >= cutoff`. -/
def passesCutoff (x word : List Char) : Bool :=
  rGe (real_quick_ratioP x word) cutoffP &&
  rGe (quick_ratioP x word) cutoffP &&
  rGe (seqRatioP x word) cutoffP

/-- Python tuple `>` on `(score, string)` pairs. -/
def pairGt (p q : (Nat × Nat) × List Char) : Bool :=
  rGt p.1 q.1 || (rEq p.1 q.1 && pyLt q.2 p.2)

def insertPairDesc (p : (Nat × Nat) × List Char) :
    List ((Nat × Nat) × List Char) → List ((Nat × Nat) × List Char)
  | [] => [p]
  | q :: qs => if pairGt p q then p :: q :: qs else q :: insertPairDesc p qs

/-- Python `sorted(result, reverse=True)`, to which `heapq.nlargest` is equivalent;
    the scored strings are pairwise distinct at the call site, so the tuple
    order is total and the descending order unique. -/
def sortPairsDesc :
    List ((Nat × Nat) × List Char) → List ((Nat × Nat) × List Char)
  | [] => []
  | p :: ps => insertPairDesc p (sortPairsDesc ps)

/-- The `result` list of `get_close_matches`: each passing possibility with
    its score, in input order. -/
def scoredCandidates (word : List Char) (possibilities : List (List Char)) :
    List ((Nat × Nat) × List Char) :=
  possibilities.filterMap (fun x =>
    if passesCutoff x word then some (seqRatioP x word, x) else none)

/-- Function `difflib.get_close_matches(word, possibilities, n, cutoff=0.6)`. -/
def get_close_matches (word : List Char) (possibilities : List (List Char))
    (n : Nat) : List (List Char) :=
  ((sortPairsDesc (scoredCandidates word possibilities)).take n).map Prod.snd

/-! ### Data model -/
/-- One loaded search row (the seven columns selected by
    `load_zero_result_searches`). -/
structure SearchRecord where
  user_pseudo_id : List Char
  event_date : List Char
  event_timestamp : Nat
  search_term : List Char
  search_result_count : Nat
  region : List Char
  device_category : List Char
deriving DecidableEq

/-- One raw `ga4_events` row (the loaded columns plus the two fields the SQL
    `WHERE` clauses filter on). -/
structure Ga4Event where
  user_pseudo_id : List Char
  event_date : List Char
  event_timestamp : Nat
  search_term : List Char
  search_result_count : Nat
  region : List Char
  device_category : List Char
  event_name : List Char
  event_category : List Char
deriving DecidableEq

/-- The `SELECT` column list of `load_zero_result_searches`. -/
def toSearchRecord (ev : Ga4Event) : SearchRecord :=
  ⟨ev.user_pseudo_id, ev.event_date, ev.event_timestamp, ev.search_term,
    ev.search_result_count, ev.region, ev.device_category⟩

/-- The zero-result `DataFrame` as a mutable object: the loaded rows plus the
    two derived columns the pipeline assigns to it in place
    (`df['search_term_normalized']` and `df['category']`). -/
structure SearchFrame where
  rows : List SearchRecord
  search_term_normalized : Option (List (List Char)) := none
  category : Option (List (List Char)) := none
deriving DecidableEq

/-- One row of the `analyze_top_zero_result_terms` result. -/
structure TermFrequency where
  search_term_normalized : List Char
  original_term : List Char
  search_count : Nat
  percentage : ℚ

/-- One row of the `analyze_by_region` result. -/
structure RegionalBucket where
  region : List Char
  zero_result_count : Nat
  unique_users : Nat
deriving DecidableEq

/-- One row of the `categorize_zero_results` summary. -/
structure CategoryBucket where
  category : List Char
  search_count : Nat
  unique_users : Nat
deriving DecidableEq

/-- One row of the `calculate_zero_result_rate_trend` result. -/
structure TrendPoint where
  event_date : List Char
  total_searches : Nat
  zero_result_searches : Nat
  zero_result_rate : Option ℚ

/-- One row of the `detect_potential_typos` result. -/
structure TypoSuggestion where
  zero_result_term : List Char
  suggested_correction : List Char
  other_suggestions : Option (List (List Char))
  frequency : Nat
deriving DecidableEq

/-- Runtime errors of the analyzer: the `KeyError` raised by sorting a
    missing `frequency` column, and the `InvalidDateRange` named by the spec
    (never raised by the code). -/
inductive AnalyzerError where
  | keyErrorFrequency
  | invalidDateRange
deriving DecidableEq

/-- The report dictionary of `generate_content_gap_report` (`results` plus
    its `summary` fields). -/
structure ContentGapReport where
  top_zero_result_terms : List TermFrequency
  regional_analysis : List RegionalBucket
  category_breakdown : List CategoryBucket
  trend_over_time : List TrendPoint
  total_zero_result_searches : Nat
  unique_zero_result_terms : Nat
  affected_users : Nat
  avg_zero_result_rate : Option ℚ

/-! ### Loading (`load_zero_result_searches`) -/
/-- SQL `d BETWEEN s AND e` on ISO date strings. -/
def inWindow (s e d : List Char) : Bool := pyLe s d && pyLe d e

/-- The `WHERE` clause of `load_zero_result_searches`. -/
def zeroQueryFilter (s e : List Char) (ev : Ga4Event) : Bool :=
  (ev.event_category == chars "global search") &&
  (ev.event_name == chars "global_search_submit") &&
  (ev.search_result_count == 0) &&
  inWindow s e ev.event_date

/-- Insertion step of `ORDER BY event_date DESC` (modelled as a stable
    descending sort). -/
def insertDateDesc (x : SearchRecord) : List SearchRecord → List SearchRecord
  | [] => [x]
  | y :: ys =>
    if pyLt y.event_date x.event_date then x :: y :: ys
    else y :: insertDateDesc x ys

/-- Clause `ORDER BY event_date DESC`. -/
def sortByDateDesc : List SearchRecord → List SearchRecord
  | [] => []
  | x :: xs => insertDateDesc x (sortByDateDesc xs)

/-- Method `load_zero_result_searches(start_date, end_date)` over an in-memory
    `ga4_events` table. -/
def load_zero_result_searches (s e : List Char) (log : List Ga4Event) :
    List SearchRecord :=
  sortByDateDesc ((log.filter (zeroQueryFilter s e)).map toSearchRecord)

/-! ### `analyze_top_zero_result_terms` -/
/-- The column `df['search_term_normalized'] = df['search_term'].str.lower()
    .str.strip()` assigned in place. -/
def normalizedColumn (rows : List SearchRecord) : List (List Char) :=
  rows.map (fun r => normalizeTerm r.search_term)

/-- The `groupby('search_term_normalized')` aggregation: one row
    `(key, count of rows, first original search_term)` per distinct
    normalized term, group keys ascending (pandas `sort=True`), `first`
    taken in input row order. -/
def termGroups (rows : List SearchRecord) :
    List (List Char × Nat × List Char) :=
  (sortKeys (uniqueFirstSeen (normalizedColumn rows))).map (fun k =>
    (k, rows.countP (fun r => normalizeTerm r.search_term == k),
      ((rows.find? (fun r => normalizeTerm r.search_term == k)).map
        (fun r => r.search_term)).getD []))

/-- Table `term_counts` after `sort_values('search_count', ascending=False)` with
    the `percentage` column: the full frequency table before `head(top_n)`.
    `total_zero_searches` is the sum of the `search_count` column. -/
def analyzeFullTable (rows : List SearchRecord) : List TermFrequency :=
  let sorted := pandasSortDesc (fun g => g.2.1) (termGroups rows)
  let total : ℕ := (sorted.map (fun g => g.2.1)).sum
  sorted.map (fun g =>
    ⟨g.1, g.2.2, g.2.1, (g.2.1 : ℚ) / (total : ℚ) * 100⟩)

/-- Method `analyze_top_zero_result_terms(df, top_n)`: assigns the normalized
    column to the input frame in place (first component) and returns
    `term_counts.head(top_n)` (second component); the `groupby` reads the
    column just assigned, which equals `normalizedColumn df.rows`. -/
def analyze_top_zero_result_terms (df : SearchFrame) (top_n : Nat) :
    SearchFrame × List TermFrequency :=
  ({ df with search_term_normalized := some (normalizedColumn df.rows) },
    (analyzeFullTable df.rows).take top_n)

/-! ### `detect_potential_typos` -/
/-- Column `df['search_term'].str.lower().unique()`. -/
def lowerTermsOf (df : SearchFrame) : List (List Char) :=
  uniqueFirstSeen (df.rows.map (fun r => pyLower r.search_term))

/-- The suggestion built for one zero-result term when `get_close_matches`
    is non-empty: best match, remaining alternates (`None` when fewer than
    two matches), and the case-insensitive frequency of the term. -/
def suggestionFor (zdf sdf : SearchFrame) (zt : List Char) :
    Option TypoSuggestion :=
  match get_close_matches zt (lowerTermsOf sdf) 3 with
  | [] => none
  | m :: rest =>
    some ⟨zt, m, if rest.isEmpty then none else some rest,
      (zdf.rows.filter (fun r => pyLower r.search_term == zt)).length⟩

/-- Method `detect_potential_typos(zero_results_df, successful_searches_df)`: when no
    term yields a suggestion, `pd.DataFrame([])` has no columns and
    `sort_values('frequency', ...)` raises a `KeyError`; otherwise the
    suggestions sorted by frequency descending. -/
def detect_potential_typos (zdf sdf : SearchFrame) :
    Except AnalyzerError (List TypoSuggestion) :=
  if ((lowerTermsOf zdf).filterMap (suggestionFor zdf sdf)).isEmpty then
    Except.error AnalyzerError.keyErrorFrequency
  else
    Except.ok (pandasSortDesc TypoSuggestion.frequency
      ((lowerTermsOf zdf).filterMap (suggestionFor zdf sdf)))

/-- The produced rows of `detect_potential_typos` (empty when the call
    raises). -/
def suggestionRows : Except AnalyzerError (List TypoSuggestion) →
    List TypoSuggestion
  | Except.ok l => l
  | Except.error _ => []

/-! ### `analyze_by_region` -/
/-- Method `analyze_by_region(df)`: group by region (keys ascending), count rows and
    distinct users, sort by count descending. -/
def analyze_by_region (df : SearchFrame) : List RegionalBucket :=
  pandasSortDesc RegionalBucket.zero_result_count
    ((sortKeys (uniqueFirstSeen (df.rows.map (fun r => r.region)))).map
      (fun k =>
        ⟨k, (df.rows.filter (fun r => r.region == k)).length,
          (uniqueFirstSeen ((df.rows.filter (fun r => r.region == k)).map
            (fun r => r.user_pseudo_id))).length⟩))

/-! ### `categorize_zero_results` -/
def comparisonWords : List (List Char) :=
  [chars "vs", chars "versus", chars "compare", chars "or"]

def pricingWords : List (List Char) :=
  [chars "price", chars "cost", chars "msrp", chars "lease"]

def featureWords : List (List Char) :=
  [chars "mpg", chars "horsepower", chars "hp", chars "range", chars "battery"]

/-- Does `nee` occur at the start of the second list? -/
def startsWithList : List Char → List Char → Bool
  | [], _ => true
  | _ :: _, [] => false
  | c :: cs, d :: ds => c == d && startsWithList cs ds

/-- Python `nee in hay` (contiguous substring containment). -/
def containsSub (nee : List Char) : List Char → Bool
  | [] => startsWithList nee []
  | c :: t => startsWithList nee (c :: t) || containsSub nee t

/-- Python `str.split()` with no separator: maximal runs of non-whitespace. -/
def splitWsAux (acc : List Char) : List Char → List (List Char)
  | [] => if acc.isEmpty then [] else [acc.reverse]
  | c :: rest =>
    if isSpaceCh c then
      if acc.isEmpty then splitWsAux [] rest
      else acc.reverse :: splitWsAux [] rest
    else splitWsAux (c :: acc) rest

/-- Column `search_term.split()`. -/
def pySplitWs (l : List Char) : List (List Char) := splitWsAux [] l

/-- The rule cascade `categorize_search` (source lines 181-194): first match
    wins; rules 1-3 test case-insensitive substring containment on the
    lowered term, rule 4 tests the whitespace token count of the original
    term. -/
def categorize_search (search_term : List Char) : List Char :=
  let search_lower := pyLower search_term
  if comparisonWords.any (fun w => containsSub w search_lower) then
    chars "Comparison Query"
  else if pricingWords.any (fun w => containsSub w search_lower) then
    chars "Pricing Query"
  else if featureWords.any (fun w => containsSub w search_lower) then
    chars "Feature/Spec Query"
  else if (pySplitWs search_term).length = 1 then
    chars "Single Word (Broad)"
  else
    chars "Other"

/-- The column `df['category'] = df['search_term'].apply(categorize_search)`
    assigned in place. -/
def categoryColumn (rows : List SearchRecord) : List (List Char) :=
  rows.map (fun r => categorize_search r.search_term)

/-- Method `categorize_zero_results(df)`: assigns the category column to the input
    frame in place (first component) and returns the per-category summary
    sorted by query count descending (second component). -/
def categorize_zero_results (df : SearchFrame) :
    SearchFrame × List CategoryBucket :=
  ({ df with category := some (categoryColumn df.rows) },
    pandasSortDesc CategoryBucket.search_count
      ((sortKeys (uniqueFirstSeen (categoryColumn df.rows))).map (fun k =>
        ⟨k,
          (df.rows.filter (fun r => categorize_search r.search_term == k)).length,
          (uniqueFirstSeen
            ((df.rows.filter (fun r => categorize_search r.search_term == k)).map
              (fun r => r.user_pseudo_id))).length⟩)))

/-! ### `calculate_zero_result_rate_trend` -/
/-- The `WHERE` clause of the trend query (no result-count condition: the
    full search log). -/
def trendQueryFilter (s e : List Char) (ev : Ga4Event) : Bool :=
  (ev.event_category == chars "global search") &&
  (ev.event_name == chars "global_search_submit") &&
  inWindow s e ev.event_date

def trendQueryRows (s e : List Char) (log : List Ga4Event) : List Ga4Event :=
  log.filter (trendQueryFilter s e)

/-- The `GROUP BY event_date ... ORDER BY event_date` key list: the distinct
    dates that occur among the filtered rows, ascending. -/
def trendDates (s e : List Char) (log : List Ga4Event) : List (List Char) :=
  sortKeys (uniqueFirstSeen ((trendQueryRows s e log).map
    (fun ev => ev.event_date)))

/-- pandas float division of two integer columns: NaN or infinity on a zero
    denominator (`none`), the exact quotient otherwise. -/
def pdDiv (a b : Nat) : Option ℚ :=
  if b = 0 then none else some ((a : ℚ) / (b : ℚ))

/-- One row of the trend table: `COUNT(*)`, the zero-result sum, and the
    `zero_result_rate` column added by the pandas division. -/
def mkTrendPoint (s e : List Char) (log : List Ga4Event) (d : List Char) :
    TrendPoint :=
  let grp := (trendQueryRows s e log).filter (fun ev => ev.event_date == d)
  ⟨d, grp.length,
    (grp.filter (fun ev => ev.search_result_count == 0)).length,
    pdDiv (grp.filter (fun ev => ev.search_result_count == 0)).length
      grp.length⟩

/-- Method `calculate_zero_result_rate_trend(start_date, end_date)` over an
    in-memory `ga4_events` table. -/
def calculate_zero_result_rate_trend (s e : List Char) (log : List Ga4Event) :
    List TrendPoint :=
  (trendDates s e log).map (mkTrendPoint s e log)

/-! ### `generate_content_gap_report` -/
/-- pandas `Series.mean()`: arithmetic mean of the non-NaN values, NaN when
    there are none. -/
def pdMean (l : List (Option ℚ)) : Option ℚ :=
  let v := l.filterMap id
  if v.length = 0 then none else some (v.sum / (v.length : ℚ))

/-- Method `generate_content_gap_report(start_date, end_date)`: loads the
    zero-result rows (no date-range validation precedes the query), runs the
    four analyses on the one frame object (which `analyze_top` and
    `categorize` mutate in place), and assembles the report; this path never
    raises. -/
def generate_content_gap_report (s e : List Char) (log : List Ga4Event) :
    Except AnalyzerError ContentGapReport :=
  let zero_results : SearchFrame := ⟨load_zero_result_searches s e log, none, none⟩
  let p1 := analyze_top_zero_result_terms zero_results 20
  let regional := analyze_by_region p1.1
  let p2 := categorize_zero_results p1.1
  let trend := calculate_zero_result_rate_trend s e log
  Except.ok
    ⟨p1.2, regional, p2.2, trend,
      zero_results.rows.length,
      (uniqueFirstSeen (zero_results.rows.map (fun r => r.search_term))).length,
      (uniqueFirstSeen (zero_results.rows.map (fun r => r.user_pseudo_id))).length,
      pdMean (trend.map (fun p => p.zero_result_rate))⟩

/-! ### Sample data for concrete evaluations -/
/-- A loaded search row with the fields the analyses read. -/
def mkRec (u d t : String) (n : Nat) : SearchRecord :=
  ⟨chars u, chars d, 0, chars t, n, chars "emea", chars "mobile"⟩

/-- A raw log row for the trend/report queries. -/
def mkEv (u d t : String) (n : Nat) : Ga4Event :=
  ⟨chars u, chars d, 0, chars t, n, chars "emea", chars "mobile",
    chars "global_search_submit", chars "global search"⟩

def sampleLog : List Ga4Event :=
  [mkEv "u1" "2024-01-02" "model3" 0, mkEv "u2" "2024-01-02" "model3" 5,
    mkEv "u3" "2024-01-03" "wiper" 0]

def typoZeroFrame : SearchFrame :=
  ⟨[mkRec "u1" "2024-01-02" "modle3" 0], none, none⟩

def typoSuccFrame : SearchFrame :=
  ⟨[mkRec "u2" "2024-01-02" "model3" 7], none, none⟩

def noMatchZeroFrame : SearchFrame :=
  ⟨[mkRec "u1" "2024-01-02" "xyz123" 0], none, none⟩

def noMatchSuccFrame : SearchFrame :=
  ⟨[mkRec "u2" "2024-01-02" "apple" 4, mkRec "u3" "2024-01-02" "banana" 2],
    none, none⟩

/-- The `search_count` total of the full frequency table
    (`term_counts['search_count'].sum()`). -/
def totalZeroSearches (rows : List SearchRecord) : Nat :=
  ((pandasSortDesc (fun g : List Char × Nat × List Char => g.2.1)
    (termGroups rows)).map (fun g => g.2.1)).sum

/-- Modelled from the spec: the tie-break the spec claims for candidate
    selection — highest ratio first, ties broken by shorter corpus-term
    length, then lexicographic (ascending) order. -/
def specPairGt (p q : (Nat × Nat) × List Char) : Bool :=
  rGt p.1 q.1 || (rEq p.1 q.1 && (decide (p.2.length < q.2.length) ||
    (decide (p.2.length = q.2.length) && pyLt p.2 q.2)))

def insertPairSpec (p : (Nat × Nat) × List Char) :
    List ((Nat × Nat) × List Char) → List ((Nat × Nat) × List Char)
  | [] => [p]
  | q :: qs => if specPairGt p q then p :: q :: qs else q :: insertPairSpec p qs

def sortPairsSpec :
    List ((Nat × Nat) × List Char) → List ((Nat × Nat) × List Char)
  | [] => []
  | p :: ps => insertPairSpec p (sortPairsSpec ps)

/-- Modelled from the spec: retain at most 3 candidates with the highest
    ratios, ties broken by shorter corpus-term length, then lexicographic
    order. -/
def specSelection (word : List Char) (possibilities : List (List Char)) :
    List (List Char) :=
  ((sortPairsSpec (scoredCandidates word possibilities)).take 3).map Prod.snd

/-- The candidate order the code actually produces: ratio descending, ties
    by lexicographically greater corpus term first. -/
def c1Ord (word : List Char) (x y : List Char) : Prop :=
  seqRatio y word < seqRatio x word ∨
    (seqRatio x word = seqRatio y word ∧ pyLt y x = true)

theorem char_toNat_inj {c d : Char} (h : c.toNat = d.toNat) : c = d := by
  have := congrArg Char.ofNat h
  rwa [Char.ofNat_toNat, Char.ofNat_toNat] at this

theorem pyLt_irrefl (a : List Char) : pyLt a a = false := by
  induction a with
  | nil => rfl
  | cons c cs ih => simp [pyLt, ih]

theorem pyLt_trans : ∀ {a b c : List Char},
    pyLt a b = true → pyLt b c = true → pyLt a c = true := by
  intro a
  induction a with
  | nil =>
    intro b c hab hbc
    cases b with
    | nil => simp [pyLt] at hab
    | cons y ys =>
      cases c with
      | nil => simp [pyLt] at hbc
      | cons z zs => simp [pyLt]
  | cons x xs ih =>
    intro b c hab hbc
    cases b with
    | nil => simp [pyLt] at hab
    | cons y ys =>
      cases c with
      | nil => simp [pyLt] at hbc
      | cons z zs =>
        simp only [pyLt] at hab hbc ⊢
        by_cases hxy : x = y
        · subst hxy
          simp only [if_pos rfl] at hab
          by_cases hyz : x = z
          · subst hyz
            simp only [if_pos rfl] at hbc ⊢
            exact ih hab hbc
          · simp only [if_neg hyz] at hbc ⊢
            exact hbc
        · simp only [if_neg hxy] at hab
          by_cases hyz : y = z
          · subst hyz
            simp only [if_neg hxy]
            exact hab
          · simp only [if_neg hyz] at hbc
            have hxz : x ≠ z := by
              intro he
              subst he
              have hlt : x.toNat < y.toNat := of_decide_eq_true hab
              have hlt' : y.toNat < x.toNat := of_decide_eq_true hbc
              omega
            simp only [if_neg hxz]
            have hlt : x.toNat < y.toNat := of_decide_eq_true hab
            have hlt' : y.toNat < z.toNat := of_decide_eq_true hbc
            exact decide_eq_true (by omega)

theorem pyLt_tri (a b : List Char) :
    pyLt a b = true ∨ a = b ∨ pyLt b a = true := by
  induction a generalizing b with
  | nil =>
    cases b with
    | nil => exact Or.inr (Or.inl rfl)
    | cons y ys => exact Or.inl (by simp [pyLt])
  | cons x xs ih =>
    cases b with
    | nil => exact Or.inr (Or.inr (by simp [pyLt]))
    | cons y ys =>
      by_cases hxy : x = y
      · subst hxy
        rcases ih ys with h | h | h
        · exact Or.inl (by simp [pyLt, h])
        · exact Or.inr (Or.inl (by rw [h]))
        · exact Or.inr (Or.inr (by simp [pyLt, h]))
      · have hne : x.toNat ≠ y.toNat := fun h => hxy (char_toNat_inj h)
        rcases Nat.lt_or_ge x.toNat y.toNat with h | h
        · exact Or.inl (by simp [pyLt, hxy, h])
        · have h' : y.toNat < x.toNat := by omega
          have hyx : y ≠ x := fun he => hxy he.symm
          exact Or.inr (Or.inr (by simp [pyLt, hyx, h']))

/-- A date `d` cannot satisfy `s <= d <= e` when `e < s`
    (SQL `BETWEEN` over an inverted range matches nothing). -/
theorem not_between_of_inverted {s e d : List Char} (hes : pyLt e s = true)
    (hsd : pyLe s d = true) (hde : pyLe d e = true) : False := by
  have hds : pyLt d s = false := by
    simpa [pyLe] using hsd
  have hed : pyLt e d = false := by
    simpa [pyLe] using hde
  rcases pyLt_tri e d with h | h | h
  · rw [h] at hed; cases hed
  · subst h
    rw [hes] at hds
    cases hds
  · have := pyLt_trans h hes
    rw [this] at hds
    cases hds

theorem toNat_ofNat_valid {n : Nat} (h : n < 55296) : (Char.ofNat n).toNat = n := by
  unfold Char.ofNat
  split
  · rfl
  · rename_i hh
    exact absurd (Or.inl h) hh

theorem lowerChar_toNat (c : Char) :
    (lowerChar c).toNat = if 65 ≤ c.toNat ∧ c.toNat ≤ 90 then c.toNat + 32 else c.toNat := by
  unfold lowerChar
  split
  · rename_i h
    exact toNat_ofNat_valid (by omega)
  · rfl

theorem lowerChar_idem (c : Char) : lowerChar (lowerChar c) = lowerChar c := by
  apply char_toNat_inj
  rw [lowerChar_toNat, lowerChar_toNat]
  split_ifs <;> omega

theorem isSpaceCh_lowerChar (c : Char) : isSpaceCh (lowerChar c) = isSpaceCh c := by
  unfold isSpaceCh
  rw [lowerChar_toNat]
  split_ifs with hc
  · unfold isSpaceNat
    simp only [decide_eq_decide]
    constructor <;> intro hx <;> omega
  · rfl

theorem head?_dropWhile (p : α → Bool) (l : List α) :
    ∀ c, (l.dropWhile p).head? = some c → p c = false := by
  induction l with
  | nil => intro c h; cases h
  | cons x xs ih =>
    intro c h
    by_cases hx : p x
    · rw [List.dropWhile_cons_of_pos hx] at h
      exact ih c h
    · rw [List.dropWhile_cons_of_neg hx] at h
      cases h
      exact Bool.of_not_eq_true hx

theorem dropWhile_eq_self_of_head (p : α → Bool) (l : List α)
    (h : ∀ c, l.head? = some c → p c = false) : l.dropWhile p = l := by
  cases l with
  | nil => rfl
  | cons x xs =>
    have hx : p x = false := h x rfl
    rw [List.dropWhile_cons_of_neg (by rw [hx]; exact Bool.false_ne_true)]

theorem dropWhile_dropWhile (p : α → Bool) (l : List α) :
    (l.dropWhile p).dropWhile p = l.dropWhile p :=
  dropWhile_eq_self_of_head p _ (head?_dropWhile p l)

theorem getLast?_dropWhile (p : α → Bool) (l : List α)
    (h : l.dropWhile p ≠ []) : (l.dropWhile p).getLast? = l.getLast? := by
  induction l with
  | nil => exact absurd rfl h
  | cons x xs ih =>
    by_cases hx : p x
    · rw [List.dropWhile_cons_of_pos hx] at h ⊢
      have hxs : xs ≠ [] := by
        intro he
        rw [he] at h
        exact h rfl
      rw [ih h]
      cases xs with
      | nil => exact absurd rfl hxs
      | cons y ys => rw [List.getLast?_cons_cons]
    · rw [List.dropWhile_cons_of_neg hx]

theorem pyStrip_idem (l : List Char) : pyStrip (pyStrip l) = pyStrip l := by
  unfold pyStrip
  set p := isSpaceCh
  set t := ((l.dropWhile p).reverse.dropWhile p) with ht
  have hself : t.reverse.dropWhile p = t.reverse := by
    apply dropWhile_eq_self_of_head
    intro c hc
    rw [List.head?_reverse] at hc
    by_cases hnil : t = []
    · rw [hnil] at hc; cases hc
    · rw [ht, getLast?_dropWhile p _ (ht ▸ hnil), List.getLast?_reverse] at hc
      exact head?_dropWhile p l c hc
  rw [hself, List.reverse_reverse, dropWhile_dropWhile]

theorem pyLower_pyStrip (l : List Char) :
    pyLower (pyStrip l) = pyStrip (pyLower l) := by
  unfold pyStrip pyLower
  have hfun : (isSpaceCh ∘ lowerChar) = isSpaceCh := by
    funext c
    exact isSpaceCh_lowerChar c
  rw [List.dropWhile_map, hfun, ← List.map_reverse, List.dropWhile_map, hfun,
    ← List.map_reverse]

theorem pyLower_idem (l : List Char) : pyLower (pyLower l) = pyLower l := by
  unfold pyLower
  rw [List.map_map]
  congr 1
  funext c
  exact lowerChar_idem c

theorem mem_uniqueAux [DecidableEq α] (seen l : List α) (a : α) :
    a ∈ uniqueAux seen l ↔ a ∈ l ∧ a ∉ seen := by
  induction l generalizing seen with
  | nil => simp [uniqueAux]
  | cons x xs ih =>
    rw [uniqueAux]
    split
    · rename_i hx
      rw [ih]
      simp only [List.mem_cons]
      constructor
      · rintro ⟨h, hs⟩
        exact ⟨Or.inr h, hs⟩
      · rintro ⟨h | h, hs⟩
        · subst h
          exact absurd hx hs
        · exact ⟨h, hs⟩
    · rename_i hx
      simp only [List.mem_cons, ih, List.mem_cons]
      constructor
      · rintro (h | ⟨h, hs⟩)
        · subst h
          exact ⟨Or.inl rfl, hx⟩
        · exact ⟨Or.inr h, fun hm => hs (Or.inr hm)⟩
      · rintro ⟨h | h, hs⟩
        · exact Or.inl h
        · by_cases hax : a = x
          · exact Or.inl hax
          · exact Or.inr ⟨h, fun hm => by
              rcases hm with hm | hm
              · exact hax hm
              · exact hs hm⟩

theorem mem_uniqueFirstSeen [DecidableEq α] (l : List α) (a : α) :
    a ∈ uniqueFirstSeen l ↔ a ∈ l := by
  unfold uniqueFirstSeen
  rw [mem_uniqueAux]
  simp

theorem nodup_uniqueAux [DecidableEq α] (seen l : List α) :
    (uniqueAux seen l).Nodup := by
  induction l generalizing seen with
  | nil => exact List.Pairwise.nil
  | cons x xs ih =>
    rw [uniqueAux]
    split
    · exact ih seen
    · refine List.Pairwise.cons ?_ (ih (x :: seen))
      intro y hy
      rcases (mem_uniqueAux _ _ y).mp hy with ⟨_, hs⟩
      exact fun he => hs (he ▸ List.mem_cons_self x seen)

theorem nodup_uniqueFirstSeen [DecidableEq α] (l : List α) :
    (uniqueFirstSeen l).Nodup := nodup_uniqueAux [] l

theorem insertByNat_perm (key : α → Nat) (x : α) (l : List α) :
    (insertByNat key x l).Perm (x :: l) := by
  induction l with
  | nil => exact List.Perm.refl _
  | cons y ys ih =>
    rw [insertByNat]
    split
    · exact List.Perm.refl _
    · exact ((ih.cons y).trans (List.Perm.swap x y ys))

theorem sortByNat_perm (key : α → Nat) (l : List α) :
    (sortByNat key l).Perm l := by
  induction l with
  | nil => exact List.Perm.refl _
  | cons x xs ih =>
    rw [sortByNat]
    exact (insertByNat_perm key x _).trans (ih.cons x)

theorem mem_insertByNat (key : α → Nat) (x : α) (l : List α) (z : α) :
    z ∈ insertByNat key x l ↔ z = x ∨ z ∈ l := by
  rw [(insertByNat_perm key x l).mem_iff]
  simp

theorem pairwise_insertByNat (key : α → Nat) {Q : α → α → Prop} (x : α)
    {l : List α} (hl : List.Pairwise (stableOrd key Q) l)
    (hx : ∀ y ∈ l, Q x y) :
    List.Pairwise (stableOrd key Q) (insertByNat key x l) := by
  induction l with
  | nil => exact List.pairwise_singleton _ x
  | cons y ys ih =>
    rw [insertByNat]
    rcases List.pairwise_cons.mp hl with ⟨hy, hys⟩
    split
    · rename_i hkey
      refine List.pairwise_cons.mpr ⟨?_, hl⟩
      intro z hz
      rcases List.mem_cons.mp hz with hz | hz
      · subst hz
        rcases Nat.lt_or_ge (key x) (key z) with h | h
        · exact Or.inl h
        · exact Or.inr ⟨by omega, hx z (List.mem_cons_self _ _)⟩
      · rcases hy z hz with h | ⟨h, _⟩
        · rcases Nat.lt_or_ge (key x) (key z) with h' | h'
          · exact Or.inl h'
          · exact Or.inr ⟨by omega, hx z (List.mem_cons_of_mem _ hz)⟩
        · rcases Nat.lt_or_ge (key x) (key z) with h' | h'
          · exact Or.inl h'
          · exact Or.inr ⟨by omega, hx z (List.mem_cons_of_mem _ hz)⟩
    · rename_i hkey
      have hyx : key y < key x := by omega
      refine List.pairwise_cons.mpr ⟨?_, ih hys (fun z hz => hx z (List.mem_cons_of_mem _ hz))⟩
      intro z hz
      rcases (mem_insertByNat key x ys z).mp hz with hz | hz
      · subst hz
        exact Or.inl hyx
      · exact hy z hz

theorem pairwise_sortByNat (key : α → Nat) {Q : α → α → Prop} {l : List α}
    (hl : List.Pairwise Q l) :
    List.Pairwise (stableOrd key Q) (sortByNat key l) := by
  induction l with
  | nil => exact List.Pairwise.nil
  | cons x xs ih =>
    rw [sortByNat]
    rcases List.pairwise_cons.mp hl with ⟨hx, hxs⟩
    refine pairwise_insertByNat key x (ih hxs) ?_
    intro y hy
    exact hx y ((sortByNat_perm key xs).mem_iff.mp hy)

theorem pandasSortDesc_perm (key : α → Nat) (l : List α) :
    (pandasSortDesc key l).Perm l := by
  unfold pandasSortDesc
  exact ((List.reverse_perm _).trans (sortByNat_perm key _)).trans
    (List.reverse_perm l)

theorem pairwise_pandasSortDesc (key : α → Nat) {Q : α → α → Prop} {l : List α}
    (hl : List.Pairwise Q l) :
    List.Pairwise (fun a b => key b < key a ∨ (key a = key b ∧ Q a b))
      (pandasSortDesc key l) := by
  unfold pandasSortDesc
  have h1 : List.Pairwise (fun a b => Q b a) l.reverse :=
    List.pairwise_reverse.mpr hl
  have h2 := pairwise_sortByNat key h1
  have h3 := List.pairwise_reverse.mpr h2
  exact h3.imp (fun {a b} h => by
    rcases h with h | ⟨h, hq⟩
    · exact Or.inl h
    · exact Or.inr ⟨h.symm, hq⟩)

theorem insertKey_perm (x : List Char) (l : List (List Char)) :
    (insertKey x l).Perm (x :: l) := by
  induction l with
  | nil => exact List.Perm.refl _
  | cons y ys ih =>
    rw [insertKey]
    split
    · exact List.Perm.refl _
    · exact ((ih.cons y).trans (List.Perm.swap x y ys))

theorem sortKeys_perm (l : List (List Char)) : (sortKeys l).Perm l := by
  induction l with
  | nil => exact List.Perm.refl _
  | cons x xs ih =>
    rw [sortKeys]
    exact (insertKey_perm x _).trans (ih.cons x)

theorem pyLe_total (a b : List Char) : pyLe a b = true ∨ pyLe b a = true := by
  unfold pyLe
  by_cases hba : pyLt b a = true
  · by_cases hab : pyLt a b = true
    · have := pyLt_trans hab hba
      rw [pyLt_irrefl] at this
      cases this
    · refine Or.inr ?_
      rw [Bool.not_eq_true']
      exact Bool.of_not_eq_true hab
  · refine Or.inl ?_
    rw [Bool.not_eq_true']
    exact Bool.of_not_eq_true hba

theorem pyLe_trans {a b c : List Char} (h1 : pyLe a b = true)
    (h2 : pyLe b c = true) : pyLe a c = true := by
  unfold pyLe at h1 h2 ⊢
  rw [Bool.not_eq_true'] at h1 h2 ⊢
  by_cases hca : pyLt c a = true
  · exfalso
    rcases pyLt_tri a b with h | h | h
    · have := pyLt_trans hca h
      rw [h2] at this
      cases this
    · subst h
      rw [hca] at h2
      cases h2
    · rw [h] at h1
      cases h1
  · exact Bool.of_not_eq_true hca

theorem mem_insertKey (x : List Char) (l : List (List Char)) (z : List Char) :
    z ∈ insertKey x l ↔ z = x ∨ z ∈ l := by
  rw [(insertKey_perm x l).mem_iff]
  simp

theorem pairwise_insertKey (x : List Char) {l : List (List Char)}
    (hl : List.Pairwise (fun a b => pyLe a b = true) l) :
    List.Pairwise (fun a b => pyLe a b = true) (insertKey x l) := by
  induction l with
  | nil => exact List.pairwise_singleton _ x
  | cons y ys ih =>
    rw [insertKey]
    rcases List.pairwise_cons.mp hl with ⟨hy, hys⟩
    split
    · rename_i hxy
      refine List.pairwise_cons.mpr ⟨?_, hl⟩
      intro z hz
      rcases List.mem_cons.mp hz with hz | hz
      · subst hz; exact hxy
      · exact pyLe_trans hxy (hy z hz)
    · rename_i hxy
      have hyx : pyLe y x = true := by
        rcases pyLe_total x y with h | h
        · exact absurd h hxy
        · exact h
      refine List.pairwise_cons.mpr ⟨?_, ih hys⟩
      intro z hz
      rcases (mem_insertKey x ys z).mp hz with hz | hz
      · subst hz; exact hyx
      · exact hy z hz

theorem pairwise_sortKeys (l : List (List Char)) :
    List.Pairwise (fun a b => pyLe a b = true) (sortKeys l) := by
  induction l with
  | nil => exact List.Pairwise.nil
  | cons x xs ih =>
    rw [sortKeys]
    exact pairwise_insertKey x ih

/-- On a duplicate-free key list the `groupby` key order is strictly
    ascending in Python string order. -/
theorem pairwise_pyLt_sortKeys {l : List (List Char)} (hl : l.Nodup) :
    List.Pairwise (fun a b => pyLt a b = true) (sortKeys l) := by
  have hnd : (sortKeys l).Nodup := ((sortKeys_perm l).nodup_iff).mpr hl
  have hle := pairwise_sortKeys l
  have hand := hle.and hnd
  exact hand.imp (fun {a b} h => by
    rcases h with ⟨hab, hne⟩
    rcases pyLt_tri a b with h | h | h
    · exact h
    · exact absurd h hne
    · unfold pyLe at hab
      rw [Bool.not_eq_true'] at hab
      rw [hab] at h
      cases h)

example : seqRatioP (chars "model3") (chars "modle3") = (10, 12) := by decide

example : seqRatioP (chars "ab1") (chars "ab") = (4, 5) := by decide

example : seqRatioP (chars "apple") (chars "xyz123") = (0, 11) := by decide

example : seqRatioP (chars "abxcd") (chars "abcd") = (8, 9) := by decide

example : seqRatioP (chars "appel") (chars "apple") = (8, 10) := by decide

example : seqRatioP (chars "appel") (chars "ape") = (6, 8) := by decide

example : seqRatioP (chars "") (chars "") = (1, 1) := by decide

example : seqRatioP (chars "a") (chars "") = (0, 1) := by decide

example : seqRatioP (chars "abcbca") (chars "cab") = (4, 9) := by decide

example : seqRatioP (chars "qabxcdy") (chars "abycdx") = (8, 13) := by decide

example : get_close_matches (chars "ab")
  [chars "ab1", chars "ab2", chars "ab3", chars "ab4"] 3 =
  [chars "ab4", chars "ab3", chars "ab2"] := by decide

example : get_close_matches (chars "appel")
  [chars "ape", chars "apple", chars "peach", chars "puppy"] 3 =
  [chars "apple", chars "ape"] := by decide

example : get_close_matches (chars "modle3") [chars "model3"] 3 =
  [chars "model3"] := by decide

example : get_close_matches (chars "xyz123") [chars "apple", chars "banana"] 3 =
  [] := by decide

/-! ### Fraction-pair / `ℚ` bridges -/
theorem calcRatioP_den_pos (m t : Nat) : 0 < (calcRatioP m t).2 := by
  unfold calcRatioP
  split
  · exact Nat.one_pos
  · rename_i h
    exact Nat.pos_of_ne_zero h

theorem seqRatioP_den_pos (a b : List Char) : 0 < (seqRatioP a b).2 :=
  calcRatioP_den_pos _ _

theorem ratQ_lt_iff {p q : Nat × Nat} (hp : 0 < p.2) (hq : 0 < q.2) :
    ratQ p < ratQ q ↔ p.1 * q.2 < q.1 * p.2 := by
  unfold ratQ
  rw [div_lt_div_iff₀ (by exact_mod_cast hp) (by exact_mod_cast hq)]
  exact_mod_cast Iff.rfl

theorem ratQ_le_iff {p q : Nat × Nat} (hp : 0 < p.2) (hq : 0 < q.2) :
    ratQ p ≤ ratQ q ↔ p.1 * q.2 ≤ q.1 * p.2 := by
  unfold ratQ
  rw [div_le_div_iff₀ (by exact_mod_cast hp) (by exact_mod_cast hq)]
  exact_mod_cast Iff.rfl

theorem ratQ_eq_iff {p q : Nat × Nat} (hp : 0 < p.2) (hq : 0 < q.2) :
    ratQ p = ratQ q ↔ p.1 * q.2 = q.1 * p.2 := by
  unfold ratQ
  rw [div_eq_div_iff (by positivity) (by positivity)]
  exact_mod_cast Iff.rfl

theorem cutoff_le_seqRatio_iff (a b : List Char) :
    cutoff ≤ seqRatio a b ↔ rGe (seqRatioP a b) cutoffP = true := by
  unfold cutoff seqRatio rGe
  rw [ratQ_le_iff (by norm_num [cutoffP]) (seqRatioP_den_pos a b)]
  rw [decide_eq_true_eq]

theorem seqRatio_lt_cutoff_iff (a b : List Char) :
    seqRatio a b < cutoff ↔ rGe (seqRatioP a b) cutoffP = false := by
  rw [← not_le, ← Bool.not_eq_true]
  exact not_congr (cutoff_le_seqRatio_iff a b)

theorem rGt_iff_ratQ {p q : Nat × Nat} (hp : 0 < p.2) (hq : 0 < q.2) :
    rGt p q = true ↔ ratQ q < ratQ p := by
  unfold rGt
  rw [decide_eq_true_eq, ratQ_lt_iff hq hp]

theorem rEq_iff_ratQ {p q : Nat × Nat} (hp : 0 < p.2) (hq : 0 < q.2) :
    rEq p q = true ↔ ratQ p = ratQ q := by
  unfold rEq
  rw [decide_eq_true_eq, ratQ_eq_iff hp hq]

/-! ### Claim theorems -/
/-- C7: term normalization (lowercase then strip) is deterministic and
    idempotent: `normalize(normalize(x)) = normalize(x)` for every string. -/
theorem normalizeTerm_idempotent (l : List Char) :
    normalizeTerm (normalizeTerm l) = normalizeTerm l := by
  unfold normalizeTerm
  rw [pyLower_pyStrip, pyLower_idem, pyStrip_idem]

/-- C2: the categorizer evaluates the rules in fixed priority order and the
    first matching rule wins (case-insensitive containment): "compare price
    mpg" is a Comparison Query although it also matches the Pricing and
    Feature/Spec keywords, the one-token term "battery" is a Feature/Spec
    Query rather than Single Word (Broad), any term matching a Comparison
    keyword is a Comparison Query, and any term matching a Feature/Spec
    keyword but no earlier rule is a Feature/Spec Query regardless of its
    token count. -/
theorem categorize_search_cascade :
    categorize_search (chars "compare price mpg") = chars "Comparison Query" ∧
    categorize_search (chars "battery") = chars "Feature/Spec Query" ∧
    (∀ t, comparisonWords.any (fun w => containsSub w (pyLower t)) = true →
      categorize_search t = chars "Comparison Query") ∧
    (∀ t, comparisonWords.any (fun w => containsSub w (pyLower t)) = false →
      pricingWords.any (fun w => containsSub w (pyLower t)) = false →
      featureWords.any (fun w => containsSub w (pyLower t)) = true →
      categorize_search t = chars "Feature/Spec Query") := by
  refine ⟨by decide, by decide, ?_, ?_⟩
  · intro t h
    simp [categorize_search, h]
  · intro t h1 h2 h3
    simp [categorize_search, h1, h2, h3]

/-- Witness for C2: the cascade theorem applied at the concrete inputs
    "1 vs 2" (rule 1) and "battery range" (rule 3, two tokens). -/
theorem categorize_search_cascade_witness :
    categorize_search (chars "1 vs 2") = chars "Comparison Query" ∧
    categorize_search (chars "battery range") = chars "Feature/Spec Query" :=
  ⟨categorize_search_cascade.2.2.1 (chars "1 vs 2") (by decide),
    categorize_search_cascade.2.2.2 (chars "battery range") (by decide)
      (by decide) (by decide)⟩

/-- C3: every day in the trend output has `total_searches > 0` (SQL `GROUP
    BY` only emits dates that occur, so the `total_searches = 0` case of the
    claim is unreachable) and its `zero_result_rate` equals
    `zero_result_searches / total_searches` (a defined rational, not NaN and
    not an error). -/
theorem trend_rate_eq_quotient (s e : List Char) (log : List Ga4Event)
    (p : TrendPoint) (hp : p ∈ calculate_zero_result_rate_trend s e log) :
    0 < p.total_searches ∧
    p.zero_result_rate =
      some ((p.zero_result_searches : ℚ) / (p.total_searches : ℚ)) := by
  rcases List.mem_map.mp hp with ⟨d, hd, rfl⟩
  have hd' : d ∈ (trendQueryRows s e log).map (fun ev => ev.event_date) :=
    (mem_uniqueFirstSeen _ d).mp ((sortKeys_perm _).mem_iff.mp hd)
  rcases List.mem_map.mp hd' with ⟨ev, hev, hevd⟩
  have hmem : ev ∈ (trendQueryRows s e log).filter
      (fun ev => ev.event_date == d) :=
    List.mem_filter.mpr ⟨hev, by simp [hevd]⟩
  have hpos : 0 < ((trendQueryRows s e log).filter
      (fun ev => ev.event_date == d)).length :=
    List.length_pos_of_mem hmem
  constructor
  · simpa [mkTrendPoint] using hpos
  · simp only [mkTrendPoint, pdDiv]
    rw [if_neg (by omega)]

/-- Witness for C3: the theorem applied to the day 2024-01-02 of a concrete
    log (two searches, one zero-result). -/
theorem trend_rate_eq_quotient_witness :
    mkTrendPoint (chars "2024-01-01") (chars "2024-01-31") sampleLog
        (chars "2024-01-02") ∈
      calculate_zero_result_rate_trend (chars "2024-01-01")
        (chars "2024-01-31") sampleLog ∧
    0 < (mkTrendPoint (chars "2024-01-01") (chars "2024-01-31") sampleLog
        (chars "2024-01-02")).total_searches ∧
    (mkTrendPoint (chars "2024-01-01") (chars "2024-01-31") sampleLog
        (chars "2024-01-02")).zero_result_rate =
      some (((mkTrendPoint (chars "2024-01-01") (chars "2024-01-31") sampleLog
          (chars "2024-01-02")).zero_result_searches : ℚ) /
        ((mkTrendPoint (chars "2024-01-01") (chars "2024-01-31") sampleLog
          (chars "2024-01-02")).total_searches : ℚ)) :=
  ⟨List.mem_map_of_mem _ (by decide),
    trend_rate_eq_quotient _ _ _ _ (List.mem_map_of_mem _ (by decide))⟩

/-- C6: over the full (non-truncated) frequency table the `percentage`
    column sums to exactly 100 whenever the total count is positive (and so
    in particular within the 1e-6 tolerance). -/
theorem percentage_sum_eq_100 (rows : List SearchRecord)
    (h : 0 < totalZeroSearches rows) :
    ((analyzeFullTable rows).map TermFrequency.percentage).sum = 100 ∧
    |((analyzeFullTable rows).map TermFrequency.percentage).sum - 100| ≤
      1 / 1000000 := by
  have key : ∀ (l : List (List Char × Nat × List Char)) (T : ℚ),
      ((l.map (fun g => (⟨g.1, g.2.2, g.2.1, (g.2.1 : ℚ) / T * 100⟩ :
        TermFrequency))).map TermFrequency.percentage).sum =
        (((l.map (fun g => g.2.1)).sum : ℕ) : ℚ) / T * 100 := by
    intro l T
    induction l with
    | nil => simp
    | cons x xs ih =>
      simp only [List.map_cons, List.sum_cons, ih]
      push_cast
      ring
  have hne : ((totalZeroSearches rows : ℚ)) ≠ 0 :=
    Nat.cast_ne_zero.mpr (by omega)
  have hmain : ((analyzeFullTable rows).map TermFrequency.percentage).sum
      = 100 := by
    rw [show analyzeFullTable rows =
      (pandasSortDesc (fun g : List Char × Nat × List Char => g.2.1)
        (termGroups rows)).map
        (fun g => (⟨g.1, g.2.2, g.2.1,
          (g.2.1 : ℚ) / ((totalZeroSearches rows : ℚ)) * 100⟩ :
          TermFrequency)) by unfold analyzeFullTable totalZeroSearches; rfl]
    rw [key]
    rw [show ((((pandasSortDesc (fun g : List Char × Nat × List Char => g.2.1)
        (termGroups rows)).map (fun g => g.2.1)).sum : ℕ) : ℚ) =
      ((totalZeroSearches rows : ℚ)) by unfold totalZeroSearches; rfl]
    rw [div_self hne, one_mul]
  refine ⟨hmain, ?_⟩
  rw [hmain]
  norm_num

/-- Witness for C6: the percentage-sum theorem applied to a concrete
    one-row frame. -/
theorem percentage_sum_eq_100_witness :
    0 < totalZeroSearches typoZeroFrame.rows ∧
    ((analyzeFullTable typoZeroFrame.rows).map TermFrequency.percentage).sum
      = 100 :=
  ⟨by decide, (percentage_sum_eq_100 typoZeroFrame.rows (by decide)).1⟩

/-- Counterexample for C9: `analyze_top_zero_result_terms` and
    `categorize_zero_results` do not leave the input frame unchanged — each
    assigns a derived column to it in place. -/
theorem frame_mutation_counterexample :
    (analyze_top_zero_result_terms typoZeroFrame 20).1 ≠ typoZeroFrame ∧
    (categorize_zero_results typoZeroFrame).1 ≠ typoZeroFrame := by
  exact ⟨by decide, by decide⟩

/-- C9 (amended): the analyses never change the loaded rows — the two
    mutating stages only add the derived `search_term_normalized` /
    `category` columns to the input frame, and leave the other derived
    column as it was. -/
theorem frame_effect_of_analyses (df : SearchFrame) (top_n : Nat) :
    (analyze_top_zero_result_terms df top_n).1.rows = df.rows ∧
    (analyze_top_zero_result_terms df top_n).1 =
      { df with search_term_normalized := some (normalizedColumn df.rows) } ∧
    (categorize_zero_results df).1.rows = df.rows ∧
    (categorize_zero_results df).1 =
      { df with category := some (categoryColumn df.rows) } :=
  ⟨rfl, rfl, rfl, rfl⟩

/-- Counterexample for C8: with start 2024-02-01 after end 2024-01-01 the
    report call does not raise (`InvalidDateRange` exists nowhere in the
    code): it queries the data source with the inverted range and returns a
    normal report. -/
theorem invalid_range_no_error_counterexample :
    pyLt (chars "2024-01-01") (chars "2024-02-01") = true ∧
    (generate_content_gap_report (chars "2024-02-01") (chars "2024-01-01")
      sampleLog).isOk = true := by
  exact ⟨by decide, rfl⟩

/-- C8 (amended): `generate_content_gap_report` performs no date-range
    validation and never raises; for a start after the end the queries still
    execute, and the zero-result load over the inverted `BETWEEN` range is
    empty. -/
theorem generate_report_no_validation (s e : List Char)
    (log : List Ga4Event) :
    (generate_content_gap_report s e log).isOk = true ∧
    (pyLt e s = true → load_zero_result_searches s e log = []) := by
  constructor
  · rfl
  · intro hes
    unfold load_zero_result_searches
    have hfil : log.filter (zeroQueryFilter s e) = [] := by
      apply List.eq_nil_iff_forall_not_mem.mpr
      intro ev hev
      rcases List.mem_filter.mp hev with ⟨_, hq⟩
      unfold zeroQueryFilter inWindow at hq
      simp only [Bool.and_eq_true] at hq
      exact not_between_of_inverted hes hq.2.1 hq.2.2
    rw [hfil]
    rfl

/-- Witness for C8 (amended): the no-validation theorem applied at the
    inverted concrete range 2024-02-01 .. 2024-01-01. -/
theorem generate_report_no_validation_witness :
    (generate_content_gap_report (chars "2024-02-01") (chars "2024-01-01")
      sampleLog).isOk = true ∧
    load_zero_result_searches (chars "2024-02-01") (chars "2024-01-01")
      sampleLog = [] :=
  ⟨(generate_report_no_validation _ _ _).1,
    (generate_report_no_validation _ _ _).2 (by decide)⟩

/-- Table `analyzeFullTable` with its `let` bindings spelled out. -/
theorem analyzeFullTable_eq (rows : List SearchRecord) :
    analyzeFullTable rows =
      (pandasSortDesc (fun g : List Char × Nat × List Char => g.2.1)
        (termGroups rows)).map
        (fun g => (⟨g.1, g.2.2, g.2.1,
          (g.2.1 : ℚ) / ((totalZeroSearches rows : ℚ)) * 100⟩ :
          TermFrequency)) := by
  unfold analyzeFullTable totalZeroSearches
  rfl

/-! ### Selection lemmas for `get_close_matches` -/
theorem filterMap_ite_eq_map_filter {α β : Type _} (c : α → Bool) (f : α → β)
    (l : List α) :
    l.filterMap (fun x => if c x then some (f x) else none) =
      (l.filter c).map f := by
  induction l with
  | nil => rfl
  | cons x xs ih =>
    rw [List.filterMap_cons, List.filter_cons]
    by_cases hx : c x
    · simp [hx, ih]
    · simp [hx, ih]

theorem scoredCandidates_eq (word : List Char) (poss : List (List Char)) :
    scoredCandidates word poss =
      (poss.filter (fun x => passesCutoff x word)).map
        (fun x => (seqRatioP x word, x)) :=
  filterMap_ite_eq_map_filter _ _ poss

theorem insertPairDesc_perm (p : (Nat × Nat) × List Char)
    (l : List ((Nat × Nat) × List Char)) :
    (insertPairDesc p l).Perm (p :: l) := by
  induction l with
  | nil => exact List.Perm.refl _
  | cons q qs ih =>
    rw [insertPairDesc]
    split
    · exact List.Perm.refl _
    · exact ((ih.cons q).trans (List.Perm.swap p q qs))

theorem sortPairsDesc_perm (l : List ((Nat × Nat) × List Char)) :
    (sortPairsDesc l).Perm l := by
  induction l with
  | nil => exact List.Perm.refl _
  | cons p ps ih =>
    rw [sortPairsDesc]
    exact (insertPairDesc_perm p _).trans (ih.cons p)

theorem mem_insertPairDesc (p : (Nat × Nat) × List Char) (l z) :
    z ∈ insertPairDesc p l ↔ z = p ∨ z ∈ l := by
  rw [(insertPairDesc_perm p l).mem_iff]
  simp

/-- Shape of the scored pairs: the score of a pair is the ratio of its own
    string against the word. -/
theorem scoredCandidates_shape (word : List Char) (poss : List (List Char)) :
    ∀ p ∈ scoredCandidates word poss, p.1 = seqRatioP p.2 word := by
  intro p hp
  rw [scoredCandidates_eq] at hp
  rcases List.mem_map.mp hp with ⟨y, _, rfl⟩
  rfl

theorem scoredCandidates_den_pos (word : List Char) (poss : List (List Char)) :
    ∀ p ∈ scoredCandidates word poss, 0 < p.1.2 := by
  intro p hp
  rw [scoredCandidates_shape word poss p hp]
  exact seqRatioP_den_pos _ _

theorem scoredCandidates_snd_nodup (word : List Char)
    {poss : List (List Char)} (hnd : poss.Nodup) :
    List.Pairwise (fun p q : (Nat × Nat) × List Char => p.2 ≠ q.2)
      (scoredCandidates word poss) := by
  rw [scoredCandidates_eq]
  exact (List.pairwise_map).mpr ((hnd.filter _).imp (fun h => h))

theorem pairGt_iff {p q : (Nat × Nat) × List Char} (hp : 0 < p.1.2)
    (hq : 0 < q.1.2) :
    pairGt p q = true ↔
      (ratQ q.1 < ratQ p.1 ∨ (ratQ p.1 = ratQ q.1 ∧ pyLt q.2 p.2 = true)) := by
  unfold pairGt
  rw [Bool.or_eq_true, Bool.and_eq_true, rGt_iff_ratQ hp hq, rEq_iff_ratQ hp hq]

theorem pairGt_total {p q : (Nat × Nat) × List Char} (hp : 0 < p.1.2)
    (hq : 0 < q.1.2) (hne : p.2 ≠ q.2) :
    pairGt p q = true ∨ pairGt q p = true := by
  rw [pairGt_iff hp hq, pairGt_iff hq hp]
  rcases lt_trichotomy (ratQ p.1) (ratQ q.1) with h | h | h
  · exact Or.inr (Or.inl h)
  · rcases pyLt_tri p.2 q.2 with h' | h' | h'
    · exact Or.inr (Or.inr ⟨h.symm, h'⟩)
    · exact absurd h' hne
    · exact Or.inl (Or.inr ⟨h, h'⟩)
  · exact Or.inl (Or.inl h)

theorem pairGt_trans {p q r : (Nat × Nat) × List Char} (hp : 0 < p.1.2)
    (hq : 0 < q.1.2) (hr : 0 < r.1.2) (h1 : pairGt p q = true)
    (h2 : pairGt q r = true) : pairGt p r = true := by
  rw [pairGt_iff hp hq] at h1
  rw [pairGt_iff hq hr] at h2
  rw [pairGt_iff hp hr]
  rcases h1 with h1 | ⟨h1e, h1s⟩
  · rcases h2 with h2 | ⟨h2e, h2s⟩
    · exact Or.inl (h2.trans h1)
    · exact Or.inl (h2e ▸ h1)
  · rcases h2 with h2 | ⟨h2e, h2s⟩
    · exact Or.inl (h1e ▸ h2)
    · exact Or.inr ⟨h1e.trans h2e, pyLt_trans h2s h1s⟩

theorem pairwise_insertPairDesc {x : (Nat × Nat) × List Char}
    {l : List ((Nat × Nat) × List Char)} (hx : 0 < x.1.2)
    (hl : ∀ p ∈ l, 0 < p.1.2) (hxl : ∀ p ∈ l, x.2 ≠ p.2)
    (hsort : List.Pairwise (fun p q => pairGt p q = true) l) :
    List.Pairwise (fun p q => pairGt p q = true) (insertPairDesc x l) := by
  induction l with
  | nil => exact List.pairwise_singleton _ x
  | cons q qs ih =>
    rw [insertPairDesc]
    rcases List.pairwise_cons.mp hsort with ⟨hq, hqs⟩
    have hqpos : 0 < q.1.2 := hl q (List.mem_cons_self _ _)
    split
    · rename_i hgt
      refine List.pairwise_cons.mpr ⟨?_, hsort⟩
      intro z hz
      rcases List.mem_cons.mp hz with hz | hz
      · subst hz; exact hgt
      · exact pairGt_trans hx hqpos (hl z (List.mem_cons_of_mem _ hz)) hgt
          (hq z hz)
    · rename_i hngt
      have hqx : pairGt q x = true := by
        rcases pairGt_total hx hqpos (hxl q (List.mem_cons_self _ _)) with
          h | h
        · exact absurd h hngt
        · exact h
      refine List.pairwise_cons.mpr ⟨?_, ih
        (fun p hp => hl p (List.mem_cons_of_mem _ hp))
        (fun p hp => hxl p (List.mem_cons_of_mem _ hp)) hqs⟩
      intro z hz
      rcases (mem_insertPairDesc x qs z).mp hz with hz | hz
      · subst hz; exact hqx
      · exact hq z hz

theorem pairwise_sortPairsDesc {l : List ((Nat × Nat) × List Char)}
    (hpos : ∀ p ∈ l, 0 < p.1.2)
    (hsnd : List.Pairwise (fun p q => p.2 ≠ q.2) l) :
    List.Pairwise (fun p q => pairGt p q = true) (sortPairsDesc l) := by
  induction l with
  | nil => exact List.Pairwise.nil
  | cons x xs ih =>
    rw [sortPairsDesc]
    rcases List.pairwise_cons.mp hsnd with ⟨hxd, hxs⟩
    have hmem : ∀ p ∈ sortPairsDesc xs, p ∈ xs :=
      fun p hp => (sortPairsDesc_perm xs).mem_iff.mp hp
    exact pairwise_insertPairDesc (hpos x (List.mem_cons_self _ _))
      (fun p hp => hpos p (List.mem_cons_of_mem _ (hmem p hp)))
      (fun p hp => hxd p (hmem p hp))
      (ih (fun p hp => hpos p (List.mem_cons_of_mem _ hp)) hxs)

/-- Every returned match is a possibility that passed the cutoff chain. -/
theorem mem_get_close_matches {word : List Char} {poss : List (List Char)}
    {n : Nat} {x : List Char} (hx : x ∈ get_close_matches word poss n) :
    x ∈ poss ∧ passesCutoff x word = true := by
  unfold get_close_matches at hx
  rcases List.mem_map.mp hx with ⟨p, hp, rfl⟩
  have hp1 : p ∈ sortPairsDesc (scoredCandidates word poss) :=
    (List.take_sublist _ _).mem hp
  have hp2 : p ∈ scoredCandidates word poss :=
    (sortPairsDesc_perm _).mem_iff.mp hp1
  rw [scoredCandidates_eq] at hp2
  rcases List.mem_map.mp hp2 with ⟨y, hy, rfl⟩
  rcases List.mem_filter.mp hy with ⟨hy1, hy2⟩
  exact ⟨hy1, hy2⟩

/-- Counterexample for C1: against the corpus {ab1, ab2, ab3, ab4} (all tied
    at ratio 4/5 to the zero-result term "ab"), the code retains
    [ab4, ab3, ab2] (`heapq.nlargest` on (score, string) tuples prefers the
    lexicographically greater string), while the spec's tie-break (shorter
    length, then lexicographic ascending) would retain [ab1, ab2, ab3]. -/
theorem typo_tie_break_counterexample :
    get_close_matches (chars "ab")
        [chars "ab1", chars "ab2", chars "ab3", chars "ab4"] 3 =
      [chars "ab4", chars "ab3", chars "ab2"] ∧
    specSelection (chars "ab")
        [chars "ab1", chars "ab2", chars "ab3", chars "ab4"] =
      [chars "ab1", chars "ab2", chars "ab3"] ∧
    get_close_matches (chars "ab")
        [chars "ab1", chars "ab2", chars "ab3", chars "ab4"] 3 ≠
      specSelection (chars "ab")
        [chars "ab1", chars "ab2", chars "ab3", chars "ab4"] := by
  exact ⟨by decide, by decide, by decide⟩

/-- C1 (amended): for a duplicate-free corpus the typo matcher retains at
    most 3 candidates, all of which pass the cutoff chain; they are ordered
    by ratio descending with ties broken by the lexicographically greater
    term first (Python tuple comparison of (score, term) in
    `heapq.nlargest` — corpus-term length plays no separate role), and every
    passing corpus term that is not retained is strictly below every
    retained one in that order. -/
theorem get_close_matches_selection (word : List Char)
    (poss : List (List Char)) (hnd : poss.Nodup) :
    (get_close_matches word poss 3).length ≤ 3 ∧
    (∀ x ∈ get_close_matches word poss 3,
      x ∈ poss ∧ passesCutoff x word = true) ∧
    List.Pairwise (c1Ord word) (get_close_matches word poss 3) ∧
    (∀ y ∈ poss, passesCutoff y word = true →
      y ∉ get_close_matches word poss 3 →
      ∀ x ∈ get_close_matches word poss 3, c1Ord word x y) := by
  have hpos := scoredCandidates_den_pos word poss
  have hsorted := pairwise_sortPairsDesc hpos
    (scoredCandidates_snd_nodup word hnd)
  have hmem_sorted : ∀ p ∈ sortPairsDesc (scoredCandidates word poss),
      p ∈ scoredCandidates word poss :=
    fun p hp => (sortPairsDesc_perm _).mem_iff.mp hp
  have hshape := scoredCandidates_shape word poss
  have hconv : ∀ p q, p ∈ scoredCandidates word poss →
      q ∈ scoredCandidates word poss → pairGt p q = true →
      c1Ord word p.2 q.2 := by
    intro p q hp hq hgt
    rw [pairGt_iff (hpos p hp) (hpos q hq)] at hgt
    rw [hshape p hp, hshape q hq] at hgt
    exact hgt
  refine ⟨?_, fun x hx => mem_get_close_matches hx, ?_, ?_⟩
  · unfold get_close_matches
    rw [List.length_map, List.length_take]
    exact min_le_left _ _
  · unfold get_close_matches
    rw [List.pairwise_map]
    have htake : List.Pairwise (fun p q => pairGt p q = true)
        ((sortPairsDesc (scoredCandidates word poss)).take 3) :=
      List.Pairwise.sublist (List.take_sublist _ _) hsorted
    refine htake.imp_of_mem ?_
    intro p q hp hq hgt
    exact hconv p q (hmem_sorted p ((List.take_sublist _ _).mem hp))
      (hmem_sorted q ((List.take_sublist _ _).mem hq)) hgt
  · intro y hy hpass hnotin x hx
    have hpy : (seqRatioP y word, y) ∈ scoredCandidates word poss := by
      rw [scoredCandidates_eq]
      exact List.mem_map_of_mem _ (List.mem_filter.mpr ⟨hy, hpass⟩)
    have hpy' : (seqRatioP y word, y) ∈
        sortPairsDesc (scoredCandidates word poss) :=
      (sortPairsDesc_perm _).mem_iff.mpr hpy
    rw [← List.take_append_drop 3
      (sortPairsDesc (scoredCandidates word poss))] at hpy'
    rcases List.mem_append.mp hpy' with hpy' | hpy'
    · exfalso
      apply hnotin
      unfold get_close_matches
      exact List.mem_map_of_mem _ hpy'
    · unfold get_close_matches at hx
      rcases List.mem_map.mp hx with ⟨px, hpx, rfl⟩
      have hcross := (List.pairwise_append.mp
        ((List.take_append_drop 3
          (sortPairsDesc (scoredCandidates word poss))).symm ▸
          hsorted)).2.2 px hpx (seqRatioP y word, y) hpy'
      have hpxm : px ∈ scoredCandidates word poss :=
        hmem_sorted px ((List.take_sublist _ _).mem hpx)
      have := hconv px (seqRatioP y word, y) hpxm hpy hcross
      exact this

/-- Witness for C1 (amended): the selection theorem applied to the corpus
    {ape, apple, peach, puppy} for the zero-result term "appel". -/
theorem get_close_matches_selection_witness :
    ([chars "ape", chars "apple", chars "peach", chars "puppy"] :
      List (List Char)).Nodup ∧
    (get_close_matches (chars "appel")
      [chars "ape", chars "apple", chars "peach", chars "puppy"] 3).length ≤
      3 ∧
    (∀ x ∈ get_close_matches (chars "appel")
        [chars "ape", chars "apple", chars "peach", chars "puppy"] 3,
      x ∈ ([chars "ape", chars "apple", chars "peach", chars "puppy"] :
        List (List Char)) ∧ passesCutoff x (chars "appel") = true) :=
  ⟨by decide,
    (get_close_matches_selection (chars "appel")
      [chars "ape", chars "apple", chars "peach", chars "puppy"]
      (by decide)).1,
    (get_close_matches_selection (chars "appel")
      [chars "ape", chars "apple", chars "peach", chars "puppy"]
      (by decide)).2.1⟩

/-- Every produced suggestion comes from some zero-result term of the input
    via `suggestionFor`. -/
theorem mem_suggestionRows {zdf sdf : SearchFrame} {sug : TypoSuggestion}
    (h : sug ∈ suggestionRows (detect_potential_typos zdf sdf)) :
    ∃ zt ∈ lowerTermsOf zdf, suggestionFor zdf sdf zt = some sug := by
  unfold detect_potential_typos at h
  split at h
  · cases h
  · have h' : sug ∈ (lowerTermsOf zdf).filterMap (suggestionFor zdf sdf) :=
      (pandasSortDesc_perm _ _).mem_iff.mp h
    exact List.mem_filterMap.mp h'

/-- A produced suggestion records its own zero-result term, and its
    suggested correction heads the `get_close_matches` result for that
    term. -/
theorem suggestionFor_shape {zdf sdf : SearchFrame} {zt : List Char}
    {sug : TypoSuggestion} (h : suggestionFor zdf sdf zt = some sug) :
    sug.zero_result_term = zt ∧
    ∃ rest, get_close_matches zt (lowerTermsOf sdf) 3 =
      sug.suggested_correction :: rest := by
  unfold suggestionFor at h
  split at h
  · cases h
  · rename_i m rest heq
    injection h with h'
    subst h'
    exact ⟨rfl, rest, heq⟩

/-- C4: every produced typo suggestion has a best match whose similarity
    ratio is at or above the cutoff 0.6, and a zero-result term all of whose
    corpus candidates fall below the cutoff never yields a suggestion. -/
theorem detect_typos_cutoff (zdf sdf : SearchFrame) :
    (∀ sug ∈ suggestionRows (detect_potential_typos zdf sdf),
      cutoff ≤ seqRatio sug.suggested_correction sug.zero_result_term) ∧
    (∀ zt ∈ lowerTermsOf zdf,
      (∀ c ∈ lowerTermsOf sdf, seqRatio c zt < cutoff) →
      ∀ sug ∈ suggestionRows (detect_potential_typos zdf sdf),
        sug.zero_result_term ≠ zt) := by
  constructor
  · intro sug hs
    rcases mem_suggestionRows hs with ⟨zt, hzt, hfor⟩
    rcases suggestionFor_shape hfor with ⟨hterm, rest, hgcm⟩
    have hmem : sug.suggested_correction ∈
        get_close_matches zt (lowerTermsOf sdf) 3 := by
      rw [hgcm]
      exact List.mem_cons_self _ _
    have hpass := (mem_get_close_matches hmem).2
    have h3 : rGe (seqRatioP sug.suggested_correction zt) cutoffP = true := by
      unfold passesCutoff at hpass
      simp only [Bool.and_eq_true] at hpass
      exact hpass.2
    rw [hterm]
    exact (cutoff_le_seqRatio_iff _ _).mpr h3
  · intro zt hzt hbelow sug hs heq
    rcases mem_suggestionRows hs with ⟨zt', hzt', hfor⟩
    rcases suggestionFor_shape hfor with ⟨hterm, rest, hgcm⟩
    have h0 : zt' = zt := by
      rw [← hterm]
      exact heq
    subst h0
    have hmem : sug.suggested_correction ∈
        get_close_matches zt' (lowerTermsOf sdf) 3 := by
      rw [hgcm]
      exact List.mem_cons_self _ _
    rcases mem_get_close_matches hmem with ⟨hin, hpass⟩
    have h3 : rGe (seqRatioP sug.suggested_correction zt') cutoffP = true := by
      unfold passesCutoff at hpass
      simp only [Bool.and_eq_true] at hpass
      exact hpass.2
    have hlt := hbelow sug.suggested_correction hin
    rw [seqRatio_lt_cutoff_iff] at hlt
    rw [h3] at hlt
    cases hlt

/-- Witness for C4: the cutoff theorem applied to the produced suggestion
    "modle3" → "model3" (ratio 5/6 ≥ 0.6). -/
theorem detect_typos_cutoff_witness :
    (⟨chars "modle3", chars "model3", none, 1⟩ : TypoSuggestion) ∈
      suggestionRows (detect_potential_typos typoZeroFrame typoSuccFrame) ∧
    cutoff ≤ seqRatio (chars "model3") (chars "modle3") :=
  ⟨by decide,
    (detect_typos_cutoff typoZeroFrame typoSuccFrame).1
      ⟨chars "modle3", chars "model3", none, 1⟩ (by decide)⟩

/-- C10: when no zero-result term has a corpus candidate at or above the
    cutoff, `detect_potential_typos` raises (the `frequency` sort is applied
    to an empty, column-less `DataFrame`) instead of returning an empty
    suggestion set. -/
theorem detect_typos_raises_on_no_match (zdf sdf : SearchFrame)
    (h : ∀ zt ∈ lowerTermsOf zdf, ∀ c ∈ lowerTermsOf sdf,
      seqRatio c zt < cutoff) :
    detect_potential_typos zdf sdf =
      Except.error AnalyzerError.keyErrorFrequency := by
  have hnone : ∀ zt ∈ lowerTermsOf zdf, suggestionFor zdf sdf zt = none := by
    intro zt hzt
    have hscored : scoredCandidates zt (lowerTermsOf sdf) = [] := by
      rw [scoredCandidates_eq]
      have hfil : (lowerTermsOf sdf).filter (fun x => passesCutoff x zt)
          = [] := by
        apply List.eq_nil_iff_forall_not_mem.mpr
        intro c hc
        rcases List.mem_filter.mp hc with ⟨hc1, hc2⟩
        have hlt := h zt hzt c hc1
        rw [seqRatio_lt_cutoff_iff] at hlt
        unfold passesCutoff at hc2
        rw [hlt, Bool.and_false] at hc2
        cases hc2
      rw [hfil]
      rfl
    have hgcm : get_close_matches zt (lowerTermsOf sdf) 3 = [] := by
      unfold get_close_matches
      rw [hscored]
      rfl
    unfold suggestionFor
    rw [hgcm]
  have hfm : (lowerTermsOf zdf).filterMap (suggestionFor zdf sdf) = [] := by
    apply List.eq_nil_iff_forall_not_mem.mpr
    intro sug hsug
    rcases List.mem_filterMap.mp hsug with ⟨zt, hzt, hfor⟩
    rw [hnone zt hzt] at hfor
    cases hfor
  unfold detect_potential_typos
  rw [hfm]
  rfl

/-- Witness for C10: the raise theorem applied to the zero-result term
    "xyz123" and the corpus {apple, banana} (all ratios 0 < 0.6). -/
theorem detect_typos_raises_on_no_match_witness :
    detect_potential_typos noMatchZeroFrame noMatchSuccFrame =
      Except.error AnalyzerError.keyErrorFrequency :=
  detect_typos_raises_on_no_match noMatchZeroFrame noMatchSuccFrame (by
    intro zt hzt c hc
    have hz : lowerTermsOf noMatchZeroFrame = [chars "xyz123"] := by decide
    have hs : lowerTermsOf noMatchSuccFrame =
        [chars "apple", chars "banana"] := by decide
    rw [hz] at hzt
    rw [hs] at hc
    have h1 := List.mem_singleton.mp hzt
    subst h1
    rcases List.mem_cons.mp hc with h2 | h2
    · subst h2
      rw [seqRatio_lt_cutoff_iff]
      decide
    · have h3 := List.mem_singleton.mp h2
      subst h3
      rw [seqRatio_lt_cutoff_iff]
      decide)
